import Mathlib

/-!
Verification of the subscription-manager repository.

The development shallowly embeds the date arithmetic of `utils.py`
(`validate_date`, `calculate_days_until_renewal`) and the store operations of
`subscription.py` (`SubscriptionManager` over its SQLite table) and proves the
specified properties about them.

Modelling conventions:
* Python strings are `List Char`; character classes (digits, lowercasing) are
  modelled over ASCII, which is exact for the data the functions are
  specified on.
* Python `datetime.date` values are `Date` triples; `date.toordinal` is the
  proleptic-Gregorian rata-die count `rataDie`, and `date` subtraction is
  `dateSub`.  Python restricts years to 1..9999; `pyReplaceYear` models
  `date.replace(year=...)` including its `ValueError` on an invalid result.
* `date.today()` is modelled by an explicit `today : Date` argument holding
  the value the system clock returned (the clock collaborator of the spec).
* Python floats holding money are modelled as exact rationals `ℚ`.
* The SQLite table is a `Store`: a list of raw rows plus the AUTOINCREMENT
  counter.  `ORDER BY name` is a stable sort by the byte order of the name
  (`sortBy rowNameLe`), `LIKE` is `likeMatch` with its `%`/`_` wildcards,
  and raising `ValueError` is the `Except String` error monad.
-/

namespace SubMgr

/-! ### Characters and strings -/

def isAsciiDigit (c : Char) : Bool := 48 ≤ c.toNat && c.toNat ≤ 57

def digitVal (c : Char) : Nat := c.toNat - 48

/-- ASCII lowercasing: models both Python `str.lower` and SQLite `LOWER`
on ASCII text. -/
def asciiLower (c : Char) : Char :=
  if 65 ≤ c.toNat ∧ c.toNat ≤ 90 then Char.ofNat (c.toNat + 32) else c

def lowerSeq (s : List Char) : List Char := s.map asciiLower

/-- Byte-order lexicographic comparison of strings, as SQLite's default
`ORDER BY` on text columns (memcmp order). -/
def charListLe : List Char → List Char → Bool
  | [], _ => true
  | _ :: _, [] => false
  | a :: s, b :: t => a.toNat < b.toNat || (a = b && charListLe s t)

/-- `seqStarts q s`: `q` is an initial run of `s`. -/
def seqStarts : List Char → List Char → Bool
  | [], _ => true
  | _ :: _, [] => false
  | a :: q, b :: s => a = b && seqStarts q s

/-- `seqContains q s`: `q` occurs contiguously inside `s`. -/
def seqContains (q : List Char) : List Char → Bool
  | [] => seqStarts q []
  | b :: s => seqStarts q (b :: s) || seqContains q s

/-- Does `f` hold of some suffix of the string (the string itself and the
empty suffix included)? -/
def anySuffix (f : List Char → Bool) : List Char → Bool
  | [] => f []
  | c :: s => f (c :: s) || anySuffix f s

/-- SQL `LIKE` pattern matching: `%` matches any run (so the rest of the
pattern must match some suffix), `_` any single character, anything else
itself (operands here are already lowercased). -/
def likeMatch : List Char → List Char → Bool
  | [], s => s.isEmpty
  | '%' :: p, s => anySuffix (likeMatch p) s
  | '_' :: p, s =>
    (match s with
     | [] => false
     | _ :: s' => likeMatch p s')
  | c :: p, s =>
    (match s with
     | [] => false
     | c' :: s' => c = c' && likeMatch p s')

/-- Queries free of the SQL `LIKE` wildcard characters. -/
def noWildcards (q : List Char) : Bool := q.all fun c => !(c = '%' || c = '_')

/-! ### Calendar arithmetic (Python `datetime.date`) -/

def isLeap (y : Nat) : Bool := y % 4 == 0 && (y % 100 != 0 || y % 400 == 0)

def daysInMonth (y m : Nat) : Nat :=
  match m with
  | 2 => if isLeap y then 29 else 28
  | 4 => 30
  | 6 => 30
  | 9 => 30
  | 11 => 30
  | 1 => 31
  | 3 => 31
  | 5 => 31
  | 7 => 31
  | 8 => 31
  | 10 => 31
  | 12 => 31
  | _ => 0

/-- Days in year `y` before the first day of month `m`. -/
def daysBeforeMonth (y : Nat) : Nat → Nat
  | 0 => 0
  | m + 1 => daysBeforeMonth y m + daysInMonth y m

/-- Days before January 1 of year `y` in the proleptic Gregorian calendar
(years count from 1). -/
def daysBeforeYear (y : Nat) : Nat :=
  365 * (y - 1) + (y - 1) / 4 + (y - 1) / 400 - (y - 1) / 100

structure Date where
  year : Nat
  month : Nat
  day : Nat
deriving DecidableEq, Repr

/-- A value `datetime.date` can actually hold: years 1..9999 and a real
month/day for that year. -/
def Date.Valid (d : Date) : Prop :=
  1 ≤ d.year ∧ d.year ≤ 9999 ∧ 1 ≤ d.month ∧ d.month ≤ 12 ∧
    1 ≤ d.day ∧ d.day ≤ daysInMonth d.year d.month

instance (d : Date) : Decidable d.Valid := by unfold Date.Valid; infer_instance

/-- Python `date.toordinal`: day 1 is 0001-01-01. -/
def rataDie (d : Date) : Nat :=
  daysBeforeYear d.year + daysBeforeMonth d.year d.month + d.day

/-- Python `date` comparison (lexicographic on year, month, day). -/
def dateLt (a b : Date) : Bool :=
  a.year < b.year ||
    (a.year = b.year &&
      (a.month < b.month || (a.month = b.month && a.day < b.day)))

/-- Python `date` subtraction, in whole days. -/
def dateSub (a b : Date) : Int := (rataDie a : Int) - (rataDie b : Int)

/-- Python `date.replace(year=y)`: succeeds exactly when the resulting
triple is a representable date, otherwise raises (modelled as `none`). -/
def pyReplaceYear (d : Date) (y : Nat) : Option Date :=
  if 1 ≤ y ∧ y ≤ 9999 ∧ 1 ≤ d.day ∧ d.day ≤ daysInMonth y d.month then
    some ⟨y, d.month, d.day⟩
  else none

/-! ### `utils.validate_date` and `utils.calculate_days_until_renewal` -/

/-- The shape accepted by the regex core `\d{4}-\d{2}-\d{2}`. -/
def ymdShape (s : List Char) : Bool :=
  match s with
  | [y1, y2, y3, y4, h1, m1, m2, h2, d1, d2] =>
    isAsciiDigit y1 && isAsciiDigit y2 && isAsciiDigit y3 && isAsciiDigit y4 &&
      h1 = '-' && isAsciiDigit m1 && isAsciiDigit m2 && h2 = '-' &&
      isAsciiDigit d1 && isAsciiDigit d2
  | _ => false

/-- The numbers written in a `YYYY-MM-DD`-shaped string. -/
def ymdOf (s : List Char) : Nat × Nat × Nat :=
  match s with
  | [y1, y2, y3, y4, _, m1, m2, _, d1, d2] =>
    (1000 * digitVal y1 + 100 * digitVal y2 + 10 * digitVal y3 + digitVal y4,
      10 * digitVal m1 + digitVal m2, 10 * digitVal d1 + digitVal d2)
  | _ => (0, 0, 0)

/-- Python `datetime.strptime(s, "%Y-%m-%d")` restricted to the shapes the
regex lets through: consumes the whole string and validates the calendar
date (year 1..9999, real month/day), else raises (`none`). -/
def strptimeYmd (s : List Char) : Option Date :=
  if ymdShape s then
    let y := (ymdOf s).1
    let m := (ymdOf s).2.1
    let d := (ymdOf s).2.2
    if 1 ≤ y ∧ 1 ≤ m ∧ m ≤ 12 ∧ 1 ≤ d ∧ d ≤ daysInMonth y m then
      some ⟨y, m, d⟩
    else none
  else none

/-- Python `re.match(r"^\d{4}-\d{2}-\d{2}$", s)`: `$` also matches just
before one final newline. -/
def reMatchYmd (s : List Char) : Bool :=
  ymdShape s ||
    (match s.getLast? with
     | some c => c = '\n' && ymdShape s.dropLast
     | none => false)

/-- `utils.validate_date`. -/
def validate_date (s : List Char) : Bool :=
  if s = [] then false
  else if !(reMatchYmd s) then false
  else (strptimeYmd s).isSome

/-- `utils.calculate_days_until_renewal`, with `today` the value
`date.today()` returned. -/
def calculate_days_until_renewal (s : List Char) (today : Date) :
    Except String Int :=
  if validate_date s = false then .error "Invalid renewal date format"
  else
    match strptimeYmd s with
    | none => .error "Error calculating days until renewal"
    | some renewal =>
      match pyReplaceYear renewal today.year with
      | none => .error "Error calculating days until renewal"
      | some renewalThisYear =>
        if dateLt renewalThisYear today then
          match pyReplaceYear renewal (today.year + 1) with
          | none => .error "Error calculating days until renewal"
          | some renewalNextYear => .ok (dateSub renewalNextYear today)
        else .ok (dateSub renewalThisYear today)

/-- Modelled from the spec: construction of a candidate calendar date with a
given year and (month, day); the candidate exists when the (month, day) is a
real day of that year, years being the four-digit range 1..9999 of the
`YYYY-MM-DD` date format. -/
def mkValidDate (y m d : Nat) : Option Date :=
  if 1 ≤ y ∧ y ≤ 9999 ∧ 1 ≤ m ∧ m ≤ 12 ∧ 1 ≤ d ∧ d ≤ daysInMonth y m then
    some ⟨y, m, d⟩
  else none

/-- Modelled from the spec: the reference definition of
`days_until_next_anniversary` — extract (month, day) from the string ignoring
its year, build a candidate in today's year, advance the candidate to today's
year plus one if it is strictly earlier than today, and return candidate
minus today in whole days. -/
def refDaysUntilNextAnniversary (s : List Char) (today : Date) : Option Int :=
  (strptimeYmd s).bind fun r =>
    (mkValidDate today.year r.month r.day).bind fun c =>
      if dateLt c today then
        (mkValidDate (today.year + 1) r.month r.day).map fun c2 =>
          dateSub c2 today
      else some (dateSub c today)

/-- The (month, day) pair written in a valid renewal date string. -/
def monthDayOf (s : List Char) : Nat × Nat :=
  match strptimeYmd s with
  | some r => (r.month, r.day)
  | none => (0, 0)

/-- Modelled from the spec: the literal pattern `YYYY-MM-DD` — four digits,
dash, two digits, dash, two digits. -/
def specMatchesYmdPattern (s : List Char) : Bool :=
  match s with
  | [y1, y2, y3, y4, h1, m1, m2, h2, d1, d2] =>
    isAsciiDigit y1 && isAsciiDigit y2 && isAsciiDigit y3 && isAsciiDigit y4 &&
      h1 = '-' && isAsciiDigit m1 && isAsciiDigit m2 && h2 = '-' &&
      isAsciiDigit d1 && isAsciiDigit d2
  | _ => false

/-- Modelled from the spec: the string denotes a real calendar date — its
month is 1..12, its day exists in that month of that year (Gregorian leap
rule), and its year is an actual calendar year (the calendar has no year 0). -/
def specRealCalendarDate (s : List Char) : Bool :=
  let y := (ymdOf s).1
  let m := (ymdOf s).2.1
  let d := (ymdOf s).2.2
  decide (1 ≤ y ∧ 1 ≤ m ∧ m ≤ 12 ∧ 1 ≤ d ∧ d ≤ daysInMonth y m)

/-! ### The subscription store (`subscription.py`) -/

instance {ε α : Type} [DecidableEq ε] [DecidableEq α] :
    DecidableEq (Except ε α) := fun a b =>
  match a, b with
  | .ok x, .ok y =>
    if h : x = y then .isTrue (by rw [h]) else .isFalse (by simp [h])
  | .error x, .error y =>
    if h : x = y then .isTrue (by rw [h]) else .isFalse (by simp [h])
  | .ok _, .error _ => .isFalse (by simp)
  | .error _, .ok _ => .isFalse (by simp)

/-- A row of the `subscriptions` table (the non-derived columns; the
`created_at` column is never read by the operations modelled here). -/
structure RawRow where
  id : Nat
  name : List Char
  category : List Char
  cost : ℚ
  renewal_date : List Char
  payment_method : List Char
deriving DecidableEq, Repr

/-- The `Subscription` dataclass. -/
structure Subscription where
  id : Option Nat
  name : List Char
  category : List Char
  cost : ℚ
  renewal_date : List Char
  payment_method : List Char
deriving DecidableEq, Repr

/-- Constructing a `Subscription`: the dataclass `__post_init__` validation
(cost first, then the renewal date), raising `ValueError` on failure. -/
def mkSubscription (i : Option Nat) (name category : List Char) (cost : ℚ)
    (renewal_date payment_method : List Char) : Except String Subscription :=
  if cost < 0 then .error "Cost cannot be negative"
  else if validate_date renewal_date = false then
    .error "Invalid renewal date format"
  else .ok ⟨i, name, category, cost, renewal_date, payment_method⟩

/-- The `Subscription` built from a row when construction succeeds. -/
def projSub (r : RawRow) : Subscription :=
  ⟨some r.id, r.name, r.category, r.cost, r.renewal_date, r.payment_method⟩

/-- The row data the dataclass constructor accepts. -/
def rowOk (r : RawRow) : Prop :=
  0 ≤ r.cost ∧ validate_date r.renewal_date = true

/-- Rebuilding a `Subscription` from a fetched row, as every query loop
does. -/
def rowToSub (r : RawRow) : Except String Subscription :=
  mkSubscription (some r.id) r.name r.category r.cost r.renewal_date
    r.payment_method

/-- The query loops: rebuild a `Subscription` per fetched row, in order; a
constructor `ValueError` propagates (only `sqlite3.Error` is caught). -/
def rowsToSubs : List RawRow → Except String (List Subscription)
  | [] => .ok []
  | r :: rs => do
    let sub ← rowToSub r
    let rest ← rowsToSubs rs
    pure (sub :: rest)

/-- The SQLite table: its rows plus the AUTOINCREMENT counter. -/
structure Store where
  rows : List RawRow
  nextId : Nat
deriving DecidableEq, Repr

/-- All rows hold data the dataclass constructor accepts — true of every
row the manager itself inserted. -/
def Store.RowsOK (s : Store) : Prop := ∀ r ∈ s.rows, rowOk r

/-- Table well-formedness: ids are positive, below the AUTOINCREMENT
counter, and unique. -/
def Store.WF (s : Store) : Prop :=
  (∀ r ∈ s.rows, 1 ≤ r.id ∧ r.id < s.nextId) ∧
    (s.rows.map RawRow.id).Nodup ∧ 1 ≤ s.nextId

/-- Insertion sort; a stable sort, used to model both SQLite `ORDER BY`
and Python's stable `list.sort`. -/
def insertBy (le : α → α → Bool) (a : α) : List α → List α
  | [] => [a]
  | b :: l => if le a b then a :: b :: l else b :: insertBy le a l

def sortBy (le : α → α → Bool) : List α → List α
  | [] => []
  | a :: l => insertBy le a (sortBy le l)

/-- `ORDER BY name` key. -/
def rowNameLe (a b : RawRow) : Bool := charListLe a.name b.name

/-- `SubscriptionManager.add_subscription`: `INSERT` assigns the next
AUTOINCREMENT id and stores the record's five fields; `lastrowid` is
returned. -/
def add_subscription (s : Store) (sub : Subscription) : Store × Nat :=
  (⟨s.rows ++
      [⟨s.nextId, sub.name, sub.category, sub.cost, sub.renewal_date,
        sub.payment_method⟩],
    s.nextId + 1⟩,
    s.nextId)

/-- `SubscriptionManager.get_all_subscriptions`:
`SELECT * ... ORDER BY name` then rebuild each row. -/
def get_all_subscriptions (s : Store) : Except String (List Subscription) :=
  rowsToSubs (sortBy rowNameLe s.rows)

/-- `SubscriptionManager.get_subscription_by_id`. -/
def get_subscription_by_id (s : Store) (i : Nat) :
    Except String (Option Subscription) :=
  match s.rows.find? (fun r => r.id == i) with
  | none => .ok none
  | some r => (rowToSub r).map some

/-- `SubscriptionManager.update_subscription`: a falsy id (`None` or `0`)
raises `ValueError`; otherwise `UPDATE ... WHERE id = ?` replaces the five
columns of the matching row and `rowcount > 0` is returned. -/
def update_subscription (s : Store) (sub : Subscription) :
    Except String (Store × Bool) :=
  match sub.id with
  | none => .error "Subscription ID is required for update"
  | some i =>
    if i = 0 then .error "Subscription ID is required for update"
    else
      .ok
        (⟨s.rows.map fun r =>
            if r.id = i then
              { r with
                name := sub.name, category := sub.category, cost := sub.cost,
                renewal_date := sub.renewal_date,
                payment_method := sub.payment_method }
            else r,
          s.nextId⟩,
          s.rows.any fun r => r.id == i)

/-- `SubscriptionManager.get_subscriptions_by_category`. -/
def get_subscriptions_by_category (s : Store) (c : List Char) :
    Except String (List Subscription) :=
  rowsToSubs (sortBy rowNameLe (s.rows.filter fun r => r.category == c))

/-- The `f"%{query_lower}%"` pattern. -/
def likePattern (q : List Char) : List Char := '%' :: (q ++ ['%'])

/-- The `WHERE LOWER(name) LIKE ? OR LOWER(category) LIKE ?` test. -/
def rowMatchesQuery (qLow : List Char) (r : RawRow) : Bool :=
  likeMatch (likePattern qLow) (lowerSeq r.name) ||
    likeMatch (likePattern qLow) (lowerSeq r.category)

/-- `SubscriptionManager.search_subscriptions`. -/
def search_subscriptions (s : Store) (q : List Char) :
    Except String (List Subscription) :=
  rowsToSubs
    (sortBy rowNameLe (s.rows.filter (rowMatchesQuery (lowerSeq q))))

/-- Python's `list.sort(key=lambda x: x[1])` comparison. -/
def pairLe (a b : Subscription × Int) : Bool := decide (a.2 ≤ b.2)

/-- The loop of `get_upcoming_renewals`: compute days-until per record (a
`ValueError` propagates) and keep those within the window. -/
def collectUpcoming (today : Date) (days : Int) :
    List Subscription → Except String (List (Subscription × Int))
  | [] => .ok []
  | sub :: rest => do
    let d ← calculate_days_until_renewal sub.renewal_date today
    let tail ← collectUpcoming today days rest
    pure (if 0 ≤ d ∧ d ≤ days then (sub, d) :: tail else tail)

/-- `SubscriptionManager.get_upcoming_renewals`. -/
def get_upcoming_renewals (s : Store) (days : Int) (today : Date) :
    Except String (List (Subscription × Int)) := do
  let subs ← get_all_subscriptions s
  let ps ← collectUpcoming today days subs
  pure (sortBy pairLe ps)

/-- `SubscriptionManager.get_total_monthly_cost`. -/
def get_total_monthly_cost (s : Store) : Except String ℚ :=
  (get_all_subscriptions s).map fun l => (l.map Subscription.cost).sum

/-- `SubscriptionManager.get_total_annual_cost`. -/
def get_total_annual_cost (s : Store) : Except String ℚ :=
  (get_total_monthly_cost s).map fun c => c * 12

/-- The record invariant of the data model. -/
def SubInv (sub : Subscription) : Prop :=
  0 ≤ sub.cost ∧ validate_date sub.renewal_date = true

/-! ### Calendar lemmas -/

theorem isLeap_iff {y : Nat} :
    isLeap y = true ↔ y % 4 = 0 ∧ (y % 100 ≠ 0 ∨ y % 400 = 0) := by
  simp [isLeap]

theorem daysBeforeYear_succ {y : Nat} (hy : 1 ≤ y) :
    daysBeforeYear (y + 1) =
      daysBeforeYear y + (if isLeap y then 366 else 365) := by
  have e : y + 1 - 1 = y := rfl
  by_cases h4 : y % 4 = 0 <;> by_cases h100 : y % 100 = 0 <;>
    by_cases h400 : y % 400 = 0 <;>
    simp [daysBeforeYear, e, isLeap, h4, h100, h400] <;>
    omega

theorem daysBeforeYear_mono {y1 y2 : Nat} (h : y1 ≤ y2) :
    daysBeforeYear y1 ≤ daysBeforeYear y2 := by
  unfold daysBeforeYear
  have h1 : (y1 - 1) / 4 ≤ (y2 - 1) / 4 := by omega
  have h2 : (y1 - 1) / 400 ≤ (y2 - 1) / 400 := by omega
  have h3 : (y2 - 1) / 100 ≤ (y2 - 1) / 4 := by omega
  have h4 : (y1 - 1) / 100 ≤ (y1 - 1) / 4 := by omega
  have h5 : (y1 - 1) / 100 ≤ (y2 - 1) / 100 := by omega
  omega

theorem daysBeforeMonth_step (y m : Nat) :
    daysBeforeMonth y (m + 1) = daysBeforeMonth y m + daysInMonth y m := rfl

theorem daysBeforeMonth_mono (y : Nat) {m1 m2 : Nat} (h : m1 ≤ m2) :
    daysBeforeMonth y m1 ≤ daysBeforeMonth y m2 := by
  induction m2 with
  | zero => simp_all
  | succ m ih =>
    rcases Nat.lt_or_ge m1 (m + 1) with h' | h'
    · exact le_trans (ih (by omega)) (by rw [daysBeforeMonth_step]; omega)
    · have : m1 = m + 1 := by omega
      simp [this]

/-- Day-of-year bounds: within a valid date the day count since January 1
is at most the year length. -/
theorem dayOfYear_bounds {y m d : Nat} (hm1 : 1 ≤ m) (hm2 : m ≤ 12)
    (hd1 : 1 ≤ d) (hd2 : d ≤ daysInMonth y m) :
    1 ≤ daysBeforeMonth y m + d ∧
      daysBeforeMonth y m + d ≤ (if isLeap y then 366 else 365) := by
  interval_cases m <;>
    rcases hL : isLeap y with _ | _ <;>
    (try simp_all [daysBeforeMonth, daysInMonth]) <;> omega

/-- Moving a (month, day) to the next year shifts its day-of-year offset by
at most one (the February 29 slot). -/
theorem daysBeforeMonth_next_year_le {y m : Nat} (hm2 : m ≤ 12) :
    daysBeforeMonth (y + 1) m ≤ daysBeforeMonth y m + 1 := by
  rcases Nat.eq_zero_or_pos m with hm | hm
  · simp [hm, daysBeforeMonth]
  interval_cases m <;>
    rcases hL : isLeap y with _ | _ <;>
    rcases hL' : isLeap (y + 1) with _ | _ <;>
    simp_all [daysBeforeMonth, daysInMonth]

theorem daysInMonth_le {y m : Nat} : daysInMonth y m ≤ 31 := by
  unfold daysInMonth
  split <;> first | omega | (split <;> omega)

/-- `rataDie` is strictly monotone along the `date` comparison on valid
dates. -/
theorem rataDie_lt_of_dateLt {a b : Date} (ha : a.Valid) (hb : b.Valid)
    (h : dateLt a b = true) : rataDie a < rataDie b := by
  obtain ⟨ha1, ha2, ha3, ha4, ha5, ha6⟩ := ha
  obtain ⟨hb1, hb2, hb3, hb4, hb5, hb6⟩ := hb
  simp only [dateLt, Bool.or_eq_true, Bool.and_eq_true, decide_eq_true_eq] at h
  unfold rataDie
  rcases h with hy | ⟨hy, hm | ⟨hm, hd⟩⟩
  · -- distinct years: finish the old year, then skip whole years
    have h1 : daysBeforeMonth a.year a.month + a.day ≤
        (if isLeap a.year then 366 else 365) :=
      (dayOfYear_bounds ha3 ha4 ha5 ha6).2
    have h2 : daysBeforeYear (a.year + 1) =
        daysBeforeYear a.year + (if isLeap a.year then 366 else 365) :=
      daysBeforeYear_succ ha1
    have h3 : daysBeforeYear (a.year + 1) ≤ daysBeforeYear b.year :=
      daysBeforeYear_mono (by omega)
    rcases hL : isLeap a.year with _ | _ <;> rw [hL] at h1 h2 <;>
      simp only [Bool.false_eq_true, if_false, if_true] at h1 h2 <;> omega
  · -- same year, earlier month
    have h1 : daysBeforeMonth a.year (a.month + 1) =
        daysBeforeMonth a.year a.month + daysInMonth a.year a.month :=
      daysBeforeMonth_step _ _
    have h2 : daysBeforeMonth a.year (a.month + 1) ≤
        daysBeforeMonth a.year b.month :=
      daysBeforeMonth_mono _ (by omega)
    rw [hy] at h1 h2 ha6 ⊢
    omega
  · rw [hy, hm]
    omega

theorem rataDie_le_of_not_dateLt {a b : Date} (ha : a.Valid) (hb : b.Valid)
    (h : dateLt a b = false) : rataDie b ≤ rataDie a := by
  by_cases hab : b = a
  · rw [hab]
  · have h' : ¬ dateLt a b = true := by simp [h]
    have : dateLt b a = true := by
      simp only [dateLt, Bool.or_eq_true, Bool.and_eq_true,
        decide_eq_true_eq] at h' ⊢
      have hne : b.year ≠ a.year ∨ b.month ≠ a.month ∨ b.day ≠ a.day := by
        by_contra hc
        push_neg at hc
        exact hab (by cases a; cases b; simp_all)
      omega
    exact le_of_lt (rataDie_lt_of_dateLt hb ha this)

theorem rataDie_inj {a b : Date} (ha : a.Valid) (hb : b.Valid)
    (h : rataDie a = rataDie b) : a = b := by
  by_contra hab
  have hne : a.year ≠ b.year ∨ a.month ≠ b.month ∨ a.day ≠ b.day := by
    by_contra hc
    push_neg at hc
    exact hab (by cases a; cases b; simp_all)
  have : dateLt a b = true ∨ dateLt b a = true := by
    simp only [dateLt, Bool.or_eq_true, Bool.and_eq_true, decide_eq_true_eq]
    omega
  rcases this with h' | h'
  · exact absurd h (Nat.ne_of_lt (rataDie_lt_of_dateLt ha hb h'))
  · exact absurd h.symm (Nat.ne_of_lt (rataDie_lt_of_dateLt hb ha h'))

/-! ### Parsing lemmas -/

theorem digitVal_le {c : Char} (h : isAsciiDigit c = true) : digitVal c ≤ 9 := by
  simp only [isAsciiDigit, Bool.and_eq_true, decide_eq_true_eq] at h
  unfold digitVal
  omega

theorem ymdShape_elim {s : List Char} (h : ymdShape s = true) :
    ∃ y1 y2 y3 y4 m1 m2 d1 d2,
      s = [y1, y2, y3, y4, '-', m1, m2, '-', d1, d2] ∧
      isAsciiDigit y1 = true ∧ isAsciiDigit y2 = true ∧
      isAsciiDigit y3 = true ∧ isAsciiDigit y4 = true ∧
      isAsciiDigit m1 = true ∧ isAsciiDigit m2 = true ∧
      isAsciiDigit d1 = true ∧ isAsciiDigit d2 = true := by
  rcases s with _ | ⟨y1, _ | ⟨y2, _ | ⟨y3, _ | ⟨y4, _ | ⟨c5, _ | ⟨m1, _ |
    ⟨m2, _ | ⟨c8, _ | ⟨d1, _ | ⟨d2, _ | ⟨x, t⟩⟩⟩⟩⟩⟩⟩⟩⟩⟩⟩ <;>
    first
    | exact Bool.noConfusion h
    | (simp only [ymdShape, Bool.and_eq_true, decide_eq_true_eq] at h
       obtain ⟨⟨⟨⟨⟨⟨⟨⟨⟨h1, h2⟩, h3⟩, h4⟩, h5⟩, h6⟩, h7⟩, h8⟩, h9⟩, h10⟩ := h
       exact ⟨y1, y2, y3, y4, m1, m2, d1, d2, by rw [h5, h8], h1, h2, h3,
         h4, h6, h7, h9, h10⟩)

theorem ymdOf_year_le {s : List Char} (h : ymdShape s = true) :
    (ymdOf s).1 ≤ 9999 := by
  obtain ⟨y1, y2, y3, y4, m1, m2, d1, d2, hs, h1, h2, h3, h4, _, _, _, _⟩ :=
    ymdShape_elim h
  subst hs
  have := digitVal_le h1
  have := digitVal_le h2
  have := digitVal_le h3
  have := digitVal_le h4
  simp only [ymdOf]
  omega

theorem strptime_valid {s : List Char} {r : Date}
    (h : strptimeYmd s = some r) : r.Valid := by
  simp only [strptimeYmd] at h
  split at h
  · split at h
    · cases h
      rename_i hshape hcond
      obtain ⟨h1, h2, h3, h4, h5⟩ := hcond
      exact ⟨h1, ymdOf_year_le hshape, h2, h3, h4, h5⟩
    · cases h
  · cases h

theorem strptime_shape {s : List Char} {r : Date}
    (h : strptimeYmd s = some r) : ymdShape s = true := by
  simp only [strptimeYmd] at h
  split at h
  · assumption
  · cases h

theorem validate_eq_isSome (s : List Char) :
    validate_date s = (strptimeYmd s).isSome := by
  rcases hp : strptimeYmd s with _ | r
  · unfold validate_date
    split
    · simp [hp]
    · split
      · simp [hp]
      · rw [hp]
  · have hshape := strptime_shape hp
    obtain ⟨y1, y2, y3, y4, m1, m2, d1, d2, hs, _⟩ := ymdShape_elim hshape
    unfold validate_date
    rw [if_neg (by simp [hs]), if_neg (by simp [reMatchYmd, hshape]), hp]

/-! ### Day-count case lemmas -/

theorem dayOfYear_le_366 {y m d : Nat} (hm1 : 1 ≤ m) (hm2 : m ≤ 12)
    (hd1 : 1 ≤ d) (hd2 : d ≤ daysInMonth y m) :
    daysBeforeMonth y m + d ≤ 366 := by
  have h := (dayOfYear_bounds hm1 hm2 hd1 hd2).2
  split at h <;> omega

/-- The not-yet-passed case: a candidate in today's year that is not
strictly earlier than today lies 0 to 365 days ahead, 0 exactly on
today itself. -/
theorem dateSub_same_year {c t : Date} (hc : c.Valid) (ht : t.Valid)
    (hy : c.year = t.year) (h : dateLt c t = false) :
    0 ≤ dateSub c t ∧ dateSub c t ≤ 365 ∧ (dateSub c t = 0 ↔ c = t) := by
  obtain ⟨hc1, hc2, hc3, hc4, hc5, hc6⟩ := hc
  obtain ⟨ht1, ht2, ht3, ht4, ht5, ht6⟩ := ht
  rw [hy] at hc6
  have hle : rataDie t ≤ rataDie c :=
    rataDie_le_of_not_dateLt ⟨hc1, hc2, hc3, hc4, hc5, by rw [hy]; exact hc6⟩
      ⟨ht1, ht2, ht3, ht4, ht5, ht6⟩ h
  have e1 : rataDie c =
      daysBeforeYear t.year + (daysBeforeMonth t.year c.month + c.day) := by
    simp [rataDie, hy, Nat.add_assoc]
  have e2 : rataDie t =
      daysBeforeYear t.year + (daysBeforeMonth t.year t.month + t.day) := by
    simp [rataDie, Nat.add_assoc]
  have b1 : daysBeforeMonth t.year c.month + c.day ≤ 366 :=
    dayOfYear_le_366 hc3 hc4 hc5 hc6
  have b2 : 1 ≤ daysBeforeMonth t.year t.month + t.day := by omega
  have hiff : rataDie c = rataDie t ↔ c = t := by
    constructor
    · intro he
      exact rataDie_inj ⟨hc1, hc2, hc3, hc4, hc5, by rw [hy]; exact hc6⟩
        ⟨ht1, ht2, ht3, ht4, ht5, ht6⟩ he
    · intro he
      rw [he]
  refine ⟨?_, ?_, ?_⟩
  · unfold dateSub
    omega
  · -- same-year distance is at most a year minus a day
    have b3 : daysBeforeMonth t.year c.month + c.day ≤
        (if isLeap t.year then 366 else 365) :=
      (dayOfYear_bounds hc3 hc4 hc5 hc6).2
    unfold dateSub
    rcases hL : isLeap t.year with _ | _ <;> rw [hL] at b3 <;>
      simp only [Bool.false_eq_true, if_false, if_true] at b3 <;> omega
  · unfold dateSub
    rw [← hiff]
    omega

/-- The rollover case: a candidate moved to next year lies 1 to 366 days
ahead of today. -/
theorem dateSub_next_year {c t c2 : Date} (hc : c.Valid) (ht : t.Valid)
    (hc2 : c2.Valid) (hy : c.year = t.year) (hlt : dateLt c t = true)
    (h2y : c2.year = t.year + 1) (h2m : c2.month = c.month)
    (h2d : c2.day = c.day) :
    1 ≤ dateSub c2 t ∧ dateSub c2 t ≤ 366 := by
  obtain ⟨hc1, hc2', hc3, hc4, hc5, hc6⟩ := hc
  obtain ⟨ht1, ht2, ht3, ht4, ht5, ht6⟩ := ht
  have hstrict : rataDie c < rataDie t :=
    rataDie_lt_of_dateLt ⟨hc1, hc2', hc3, hc4, hc5, hc6⟩
      ⟨ht1, ht2, ht3, ht4, ht5, ht6⟩ hlt
  have e1 : rataDie c =
      daysBeforeYear t.year + (daysBeforeMonth t.year c.month + c.day) := by
    simp [rataDie, hy, Nat.add_assoc]
  have e2 : rataDie t =
      daysBeforeYear t.year + (daysBeforeMonth t.year t.month + t.day) := by
    simp [rataDie, Nat.add_assoc]
  have e3 : rataDie c2 =
      daysBeforeYear (t.year + 1) +
        (daysBeforeMonth (t.year + 1) c.month + c.day) := by
    simp [rataDie, h2y, h2m, h2d, Nat.add_assoc]
  have hsucc := daysBeforeYear_succ ht1
  have hnext : daysBeforeMonth (t.year + 1) c.month ≤
      daysBeforeMonth t.year c.month + 1 :=
    daysBeforeMonth_next_year_le hc4
  have b1 : daysBeforeMonth t.year t.month + t.day ≤
      (if isLeap t.year then 366 else 365) :=
    (dayOfYear_bounds ht3 ht4 ht5 ht6).2
  unfold dateSub
  rcases hL : isLeap t.year with _ | _ <;> rw [hL] at b1 hsucc <;>
    simp only [Bool.false_eq_true, if_false, if_true] at b1 hsucc <;> omega

theorem dateLt_irrefl (a : Date) : dateLt a a = false := by
  simp [dateLt]

theorem replace_eq_mk {r : Date} (hm1 : 1 ≤ r.month) (hm2 : r.month ≤ 12)
    (hd : 1 ≤ r.day) (y : Nat) :
    pyReplaceYear r y = mkValidDate y r.month r.day := by
  unfold pyReplaceYear mkValidDate
  split <;> split <;> first | rfl | omega

theorem pyReplace_valid {r c : Date} {y : Nat} (hm1 : 1 ≤ r.month)
    (hm2 : r.month ≤ 12) (h : pyReplaceYear r y = some c) :
    c = ⟨y, r.month, r.day⟩ ∧ c.Valid := by
  unfold pyReplaceYear at h
  split at h
  · cases h
    rename_i hcond
    exact ⟨rfl, hcond.1, hcond.2.1, hm1, hm2, hcond.2.2.1, hcond.2.2.2⟩
  · cases h

theorem calc_eq {s : List Char} (today : Date) (hv : validate_date s = true)
    {r : Date} (hp : strptimeYmd s = some r) :
    calculate_days_until_renewal s today =
      match pyReplaceYear r today.year with
      | none => .error "Error calculating days until renewal"
      | some c =>
        if dateLt c today then
          match pyReplaceYear r (today.year + 1) with
          | none => .error "Error calculating days until renewal"
          | some c2 => .ok (dateSub c2 today)
        else .ok (dateSub c today) := by
  unfold calculate_days_until_renewal
  rw [hv, hp]
  simp

theorem ref_eq {s : List Char} (today : Date) {r : Date}
    (hp : strptimeYmd s = some r) :
    refDaysUntilNextAnniversary s today =
      (mkValidDate today.year r.month r.day).bind fun c =>
        if dateLt c today then
          (mkValidDate (today.year + 1) r.month r.day).map fun c2 =>
            dateSub c2 today
        else some (dateSub c today) := by
  unfold refDaysUntilNextAnniversary
  rw [hp]
  rfl

/-- Shape of every successful run of `calculate_days_until_renewal`. -/
theorem calc_ok_cases {s : List Char} {today : Date} {n : Int}
    (hv : validate_date s = true)
    (hok : calculate_days_until_renewal s today = .ok n) :
    ∃ r, strptimeYmd s = some r ∧
      ((∃ c, pyReplaceYear r today.year = some c ∧ dateLt c today = false ∧
          n = dateSub c today) ∨
        (∃ c c2, pyReplaceYear r today.year = some c ∧
          dateLt c today = true ∧
          pyReplaceYear r (today.year + 1) = some c2 ∧
          n = dateSub c2 today)) := by
  have hsome : (strptimeYmd s).isSome = true := by
    rw [← validate_eq_isSome, hv]
  rcases hp : strptimeYmd s with _ | r
  · rw [hp] at hsome; cases hsome
  refine ⟨r, rfl, ?_⟩
  rw [calc_eq today hv hp] at hok
  split at hok
  · cases hok
  · rename_i c h1
    split at hok
    · rename_i hlt
      split at hok
      · cases hok
      · rename_i c2 h2
        cases hok
        exact Or.inr ⟨c, c2, h1, hlt, h2, rfl⟩
    · rename_i hlt
      cases hok
      exact Or.inl ⟨c, h1, by simpa using hlt, rfl⟩

/-- C1: for every renewal date string passing validation and every value of
today, the computation agrees with the spec's reference definition (the two
are defined on exactly the same inputs and return the same day count), the
returned count is never negative, and it is zero exactly when the string's
(month, day) equals today's (month, day). -/
theorem claim_c1_days_until_matches_reference (s : List Char) (today : Date)
    (hv : validate_date s = true) (ht : today.Valid) :
    (∀ n : Int, calculate_days_until_renewal s today = .ok n ↔
        refDaysUntilNextAnniversary s today = some n) ∧
    (∀ n : Int, calculate_days_until_renewal s today = .ok n →
        0 ≤ n ∧ (n = 0 ↔ monthDayOf s = (today.month, today.day))) := by
  have hsome : (strptimeYmd s).isSome = true := by
    rw [← validate_eq_isSome, hv]
  rcases hp : strptimeYmd s with _ | r
  · rw [hp] at hsome; cases hsome
  obtain ⟨hr1, hr2, hr3, hr4, hr5, hr6⟩ := strptime_valid hp
  obtain ⟨ht1, ht2, ht3, ht4, ht5, ht6⟩ := ht
  have hmd : monthDayOf s = (r.month, r.day) := by
    unfold monthDayOf
    rw [hp]
  constructor
  · -- equality with the reference definition, as a definedness equivalence
    intro n
    rw [calc_eq today hv hp, ref_eq today hp,
      ← replace_eq_mk hr3 hr4 hr5 today.year,
      ← replace_eq_mk hr3 hr4 hr5 (today.year + 1)]
    rcases h1 : pyReplaceYear r today.year with _ | c
    · simp
    · rcases hlt : dateLt c today with _ | _ <;>
        rcases h2 : pyReplaceYear r (today.year + 1) with _ | c2 <;>
        simp [hlt, Option.bind, h2]
  · intro n hok
    obtain ⟨r', hp', hcase⟩ := calc_ok_cases hv hok
    rw [hp] at hp'
    cases hp'
    rcases hcase with ⟨c, h1, hlt, hn⟩ | ⟨c, c2, h1, hlt, h2, hn⟩
    · obtain ⟨hc, hcv⟩ := pyReplace_valid hr3 hr4 h1
      have hsame := dateSub_same_year hcv ⟨ht1, ht2, ht3, ht4, ht5, ht6⟩
        (by rw [hc]) hlt
      subst hn
      refine ⟨hsame.1, ?_⟩
      rw [hsame.2.2, hmd, hc]
      constructor
      · intro he
        rw [← he]
      · intro he
        simp only [Prod.mk.injEq] at he
        have : today = ⟨today.year, today.month, today.day⟩ := rfl
        rw [this]
        simp [he]
    · obtain ⟨hc, hcv⟩ := pyReplace_valid hr3 hr4 h1
      obtain ⟨hc2, hc2v⟩ := pyReplace_valid hr3 hr4 h2
      have hnext := dateSub_next_year hcv ⟨ht1, ht2, ht3, ht4, ht5, ht6⟩
        hc2v (by rw [hc]) hlt (by rw [hc2]) (by rw [hc2, hc])
        (by rw [hc2, hc])
      subst hn
      refine ⟨by omega, ?_⟩
      constructor
      · intro he
        omega
      · intro he
        rw [hmd] at he
        simp only [Prod.mk.injEq] at he
        have hct : c = today := by
          rw [hc]
          have : today = ⟨today.year, today.month, today.day⟩ := rfl
          rw [this]
          simp [he]
        rw [hct, dateLt_irrefl] at hlt
        cases hlt

/-- C1 witness: on renewal date 2024-01-10 and today 2024-01-05 the
hypotheses hold and the computation returns 5 on both sides. -/
theorem claim_c1_witness :
    validate_date ("2024-01-10".toList) = true ∧
    (⟨2024, 1, 5⟩ : Date).Valid ∧
    ((∀ n : Int,
        calculate_days_until_renewal ("2024-01-10".toList) ⟨2024, 1, 5⟩ =
          .ok n ↔
        refDaysUntilNextAnniversary ("2024-01-10".toList) ⟨2024, 1, 5⟩ =
          some n) ∧
      (∀ n : Int,
        calculate_days_until_renewal ("2024-01-10".toList) ⟨2024, 1, 5⟩ =
          .ok n →
        0 ≤ n ∧ (n = 0 ↔ monthDayOf ("2024-01-10".toList) = (1, 5)))) :=
  ⟨by decide, by decide,
    claim_c1_days_until_matches_reference ("2024-01-10".toList) ⟨2024, 1, 5⟩
      (by decide) (by decide)⟩

/-- C2: the code has no Feb 29 fallback — on the valid renewal date
2024-02-29 with today 2025-01-01 (a non-leap candidate year) the candidate
construction fails and the function raises instead of returning an
integer, contradicting the mandated deterministic fallback. -/
theorem claim_c2_feb29_raises :
    validate_date ("2024-02-29".toList) = true ∧
    (⟨2025, 1, 1⟩ : Date).Valid ∧
    calculate_days_until_renewal ("2024-02-29".toList) ⟨2025, 1, 1⟩ =
      .error "Error calculating days until renewal" := by
  exact ⟨by decide, by decide, by decide⟩

/-- C7: whenever the computation returns a day count for a valid renewal
date string and a valid today, that count lies in the closed interval
[0, 366]. -/
theorem claim_c7_days_until_range (s : List Char) (today : Date) (n : Int)
    (hv : validate_date s = true) (ht : today.Valid)
    (hok : calculate_days_until_renewal s today = .ok n) :
    0 ≤ n ∧ n ≤ 366 := by
  obtain ⟨r, hp, hcase⟩ := calc_ok_cases hv hok
  obtain ⟨hr1, hr2, hr3, hr4, hr5, hr6⟩ := strptime_valid hp
  rcases hcase with ⟨c, h1, hlt, hn⟩ | ⟨c, c2, h1, hlt, h2, hn⟩
  · obtain ⟨hc, hcv⟩ := pyReplace_valid hr3 hr4 h1
    have hsame := dateSub_same_year hcv ht (by rw [hc]) hlt
    subst hn
    exact ⟨hsame.1, by omega⟩
  · obtain ⟨hc, hcv⟩ := pyReplace_valid hr3 hr4 h1
    obtain ⟨hc2, hc2v⟩ := pyReplace_valid hr3 hr4 h2
    have hnext := dateSub_next_year hcv ht hc2v (by rw [hc]) hlt
      (by rw [hc2]) (by rw [hc2, hc]) (by rw [hc2, hc])
    subst hn
    exact ⟨by omega, hnext.2⟩

/-- C7 witness: the hypotheses hold on renewal date 2024-01-10 and today
2024-01-05, the function returns 5, and 5 lies in [0, 366]. -/
theorem claim_c7_witness :
    validate_date ("2024-01-10".toList) = true ∧
    (⟨2024, 1, 5⟩ : Date).Valid ∧
    calculate_days_until_renewal ("2024-01-10".toList) ⟨2024, 1, 5⟩ =
      .ok 5 ∧
    (0 ≤ (5 : Int) ∧ (5 : Int) ≤ 366) :=
  ⟨by decide, by decide, by decide,
    claim_c7_days_until_range ("2024-01-10".toList) ⟨2024, 1, 5⟩ 5
      (by decide) (by decide) (by decide)⟩

theorem specPattern_eq_shape (s : List Char) :
    specMatchesYmdPattern s = ymdShape s := rfl

/-- C8: `validate_date` returns true exactly on strings that match the
literal `YYYY-MM-DD` pattern and denote a real calendar date, and it
behaves as specified on the four given examples (being a total boolean
function, it never throws). -/
theorem claim_c8_validate_characterisation :
    (∀ s : List Char, validate_date s = true ↔
        (specMatchesYmdPattern s = true ∧ specRealCalendarDate s = true)) ∧
    validate_date ("2024-02-30".toList) = false ∧
    validate_date ("2024-02-29".toList) = true ∧
    validate_date ("not-a-date".toList) = false ∧
    validate_date ("".toList) = false := by
  refine ⟨?_, by decide, by decide, by decide, by decide⟩
  intro s
  rw [validate_eq_isSome, specPattern_eq_shape]
  constructor
  · intro h
    rcases hp : strptimeYmd s with _ | r
    · rw [hp] at h; cases h
    refine ⟨strptime_shape hp, ?_⟩
    simp only [strptimeYmd] at hp
    split at hp
    · split at hp
      · rename_i hcond
        simp only [specRealCalendarDate, decide_eq_true_eq]
        exact hcond
      · cases hp
    · cases hp
  · rintro ⟨hshape, hreal⟩
    simp only [specRealCalendarDate, decide_eq_true_eq] at hreal
    simp only [strptimeYmd]
    rw [if_pos hshape, if_pos hreal]
    rfl

/-! ### Sorting lemmas -/

theorem char_toNat_inj {a b : Char} (h : a.toNat = b.toNat) : a = b :=
  Char.ext (UInt32.ext h)

theorem charListLe_total : ∀ s t : List Char,
    charListLe s t = true ∨ charListLe t s = true
  | [], _ => Or.inl rfl
  | _ :: _, [] => Or.inr rfl
  | a :: s, b :: t => by
    simp only [charListLe, Bool.or_eq_true, Bool.and_eq_true,
      decide_eq_true_eq]
    rcases Nat.lt_trichotomy a.toNat b.toNat with h | h | h
    · exact Or.inl (Or.inl h)
    · have hab : a = b := char_toNat_inj h
      subst hab
      rcases charListLe_total s t with h' | h'
      · exact Or.inl (Or.inr ⟨rfl, h'⟩)
      · exact Or.inr (Or.inr ⟨rfl, h'⟩)
    · exact Or.inr (Or.inl h)

theorem charListLe_trans : ∀ s t u : List Char, charListLe s t = true →
    charListLe t u = true → charListLe s u = true
  | [], _, _, _, _ => rfl
  | _ :: _, [], _, h1, _ => Bool.noConfusion h1
  | _ :: _, _ :: _, [], _, h2 => Bool.noConfusion h2
  | a :: s, b :: t, c :: u, h1, h2 => by
    simp only [charListLe, Bool.or_eq_true, Bool.and_eq_true,
      decide_eq_true_eq] at h1 h2 ⊢
    rcases h1 with h1 | ⟨rfl, h1⟩ <;> rcases h2 with h2 | ⟨rfl, h2⟩
    · exact Or.inl (Nat.lt_trans h1 h2)
    · exact Or.inl h1
    · exact Or.inl h2
    · exact Or.inr ⟨rfl, charListLe_trans s t u h1 h2⟩

section Sorting

variable {α : Type} {le : α → α → Bool}

theorem insertBy_perm (a : α) (l : List α) :
    (insertBy le a l).Perm (a :: l) := by
  induction l with
  | nil => exact List.Perm.refl _
  | cons b t ih =>
    unfold insertBy
    split
    · exact List.Perm.refl _
    · exact (List.Perm.cons b ih).trans (List.Perm.swap a b t)

theorem sortBy_perm (l : List α) : (sortBy le l).Perm l := by
  induction l with
  | nil => exact List.Perm.refl _
  | cons a t ih =>
    exact (insertBy_perm a (sortBy le t)).trans (List.Perm.cons a ih)

theorem insertBy_cons (a b : α) (l : List α) :
    insertBy le a (b :: l) =
      if le a b then a :: b :: l else b :: insertBy le a l := rfl

theorem insertBy_cons_of_le (a : α) {l : List α}
    (h : ∀ x ∈ l, le a x = true) : insertBy le a l = a :: l := by
  cases l with
  | nil => rfl
  | cons b t =>
    unfold insertBy
    rw [if_pos (h b (by simp))]

theorem sorted_insertBy (htot : ∀ a b, le a b = true ∨ le b a = true)
    (htrans : ∀ a b c, le a b = true → le b c = true → le a c = true)
    (a : α) {l : List α} (hl : l.Pairwise fun x y => le x y = true) :
    (insertBy le a l).Pairwise fun x y => le x y = true := by
  induction l with
  | nil => simp [insertBy]
  | cons b t ih =>
    rw [List.pairwise_cons] at hl
    obtain ⟨hb, ht⟩ := hl
    unfold insertBy
    split
    · rename_i hab
      rw [List.pairwise_cons]
      refine ⟨?_, List.pairwise_cons.mpr ⟨hb, ht⟩⟩
      intro x hx
      rcases List.mem_cons.mp hx with rfl | hx
      · exact hab
      · exact htrans a b x hab (hb x hx)
    · rename_i hab
      have hba : le b a = true := by
        rcases htot a b with h | h
        · exact absurd h hab
        · exact h
      rw [List.pairwise_cons]
      refine ⟨?_, ih ht⟩
      intro x hx
      rcases List.mem_cons.mp ((insertBy_perm a t).mem_iff.mp hx) with
        rfl | hx'
      · exact hba
      · exact hb x hx'

theorem sortBy_sorted (htot : ∀ a b, le a b = true ∨ le b a = true)
    (htrans : ∀ a b c, le a b = true → le b c = true → le a c = true)
    (l : List α) :
    (sortBy le l).Pairwise fun x y => le x y = true := by
  induction l with
  | nil => simp [sortBy]
  | cons a t ih => exact sorted_insertBy htot htrans a ih

theorem filter_insertBy (htot : ∀ a b, le a b = true ∨ le b a = true)
    (htrans : ∀ a b c, le a b = true → le b c = true → le a c = true)
    (p : α → Bool) (a : α) {l : List α}
    (hl : l.Pairwise fun x y => le x y = true) :
    (insertBy le a l).filter p =
      if p a then insertBy le a (l.filter p) else l.filter p := by
  induction l with
  | nil => cases hpa : p a <;> simp [insertBy, hpa]
  | cons b t ih =>
    rw [List.pairwise_cons] at hl
    obtain ⟨hb, ht⟩ := hl
    rw [insertBy_cons]
    by_cases hab : le a b = true
    · rw [if_pos hab]
      have hall : ∀ x ∈ t.filter p, le a x = true := by
        intro x hx
        exact htrans a b x hab (hb x (List.mem_of_mem_filter hx))
      cases hpa : p a <;> cases hpb : p b
      · simp [List.filter_cons, hpa, hpb]
      · simp [List.filter_cons, hpa, hpb]
      · simp [List.filter_cons, hpa, hpb, insertBy_cons_of_le a hall]
      · simp [List.filter_cons, hpa, hpb, insertBy_cons, hab]
    · rw [if_neg hab]
      cases hpa : p a <;> cases hpb : p b
      · simp [List.filter_cons, hpa, hpb, ih ht]
      · simp [List.filter_cons, hpa, hpb, ih ht]
      · simp [List.filter_cons, hpa, hpb, ih ht]
      · simp [List.filter_cons, hpa, hpb, ih ht, insertBy_cons, hab]

theorem filter_sortBy (htot : ∀ a b, le a b = true ∨ le b a = true)
    (htrans : ∀ a b c, le a b = true → le b c = true → le a c = true)
    (p : α → Bool) (l : List α) :
    (sortBy le l).filter p = sortBy le (l.filter p) := by
  induction l with
  | nil => rfl
  | cons a t ih =>
    simp only [sortBy]
    rw [filter_insertBy htot htrans p a (sortBy_sorted htot htrans t)]
    cases hpa : p a <;> simp [List.filter_cons, hpa, ih, sortBy]

/-- The relation a stable sort by `le` guarantees on its output, `Q` being
an order on the input list. -/
def StRel (le : α → α → Bool) (Q : α → α → Prop) (x y : α) : Prop :=
  (le x y = true ∧ le y x = false) ∨
    (le x y = true ∧ le y x = true ∧ Q x y)

theorem stable_insertBy {Q : α → α → Prop}
    (htot : ∀ a b, le a b = true ∨ le b a = true)
    (htrans : ∀ a b c, le a b = true → le b c = true → le a c = true)
    (a : α) {l : List α} (hl : l.Pairwise (StRel le Q))
    (hQ : ∀ b ∈ l, Q a b) :
    (insertBy le a l).Pairwise (StRel le Q) := by
  induction l with
  | nil => simp [insertBy]
  | cons b t ih =>
    rw [List.pairwise_cons] at hl
    obtain ⟨hb, ht⟩ := hl
    unfold insertBy
    split
    · rename_i hab
      rw [List.pairwise_cons]
      constructor
      · intro x hx
        have hax : le a x = true := by
          rcases List.mem_cons.mp hx with rfl | hx'
          · exact hab
          · rcases hb x hx' with ⟨h1, _⟩ | ⟨h1, _, _⟩ <;>
              exact htrans a b x hab h1
        rcases hxa : le x a with _ | _
        · exact Or.inl ⟨hax, hxa⟩
        · exact Or.inr ⟨hax, hxa, hQ x hx⟩
      · exact List.pairwise_cons.mpr ⟨hb, ht⟩
    · rename_i hab
      have hba : le b a = true := by
        rcases htot a b with h | h
        · exact absurd h hab
        · exact h
      rw [List.pairwise_cons]
      constructor
      · intro x hx
        rcases List.mem_cons.mp ((insertBy_perm a t).mem_iff.mp hx) with
          rfl | hx'
        · exact Or.inl ⟨hba, Bool.eq_false_iff.mpr hab⟩
        · exact hb x hx'
      · exact ih ht fun x hx => hQ x (List.mem_cons_of_mem b hx)

theorem stable_sortBy {Q : α → α → Prop}
    (htot : ∀ a b, le a b = true ∨ le b a = true)
    (htrans : ∀ a b c, le a b = true → le b c = true → le a c = true)
    {l : List α} (hl : l.Pairwise Q) :
    (sortBy le l).Pairwise (StRel le Q) := by
  induction l with
  | nil => simp [sortBy]
  | cons a t ih =>
    rw [List.pairwise_cons] at hl
    obtain ⟨ha, ht⟩ := hl
    exact stable_insertBy htot htrans a (ih ht)
      fun b hb => ha b ((sortBy_perm t).mem_iff.mp hb)

end Sorting

theorem rowNameLe_total (a b : RawRow) :
    rowNameLe a b = true ∨ rowNameLe b a = true :=
  charListLe_total a.name b.name

theorem rowNameLe_trans (a b c : RawRow) (h1 : rowNameLe a b = true)
    (h2 : rowNameLe b c = true) : rowNameLe a c = true :=
  charListLe_trans a.name b.name c.name h1 h2

theorem pairLe_total (a b : Subscription × Int) :
    pairLe a b = true ∨ pairLe b a = true := by
  unfold pairLe
  rcases Int.le_total a.2 b.2 with h | h
  · exact Or.inl (by simpa using h)
  · exact Or.inr (by simpa using h)

theorem pairLe_trans (a b c : Subscription × Int) (h1 : pairLe a b = true)
    (h2 : pairLe b c = true) : pairLe a c = true := by
  simp only [pairLe, decide_eq_true_eq] at h1 h2 ⊢
  omega

/-! ### Record construction lemmas -/

theorem mk_ok {i : Option Nat} {name category : List Char} {cost : ℚ}
    {rd pm : List Char} (h1 : 0 ≤ cost) (h2 : validate_date rd = true) :
    mkSubscription i name category cost rd pm =
      .ok ⟨i, name, category, cost, rd, pm⟩ := by
  unfold mkSubscription
  rw [if_neg (not_lt.mpr h1), if_neg (by simp [h2])]

theorem mk_err_cost {i : Option Nat} {name category : List Char} {cost : ℚ}
    {rd pm : List Char} (h : cost < 0) :
    mkSubscription i name category cost rd pm =
      .error "Cost cannot be negative" := by
  unfold mkSubscription
  rw [if_pos h]

theorem mk_err_date {i : Option Nat} {name category : List Char} {cost : ℚ}
    {rd pm : List Char} (h1 : 0 ≤ cost) (h2 : validate_date rd = false) :
    mkSubscription i name category cost rd pm =
      .error "Invalid renewal date format" := by
  unfold mkSubscription
  rw [if_neg (not_lt.mpr h1), if_pos h2]

theorem mk_inv {i : Option Nat} {name category : List Char} {cost : ℚ}
    {rd pm : List Char} {sub : Subscription}
    (h : mkSubscription i name category cost rd pm = .ok sub) :
    SubInv sub := by
  unfold mkSubscription at h
  split at h
  · cases h
  · split at h
    · cases h
    · cases h
      rename_i hcost hdate
      exact ⟨not_lt.mp hcost, by simpa using hdate⟩

theorem rowToSub_ok {r : RawRow} (h : rowOk r) :
    rowToSub r = .ok (projSub r) := by
  unfold rowToSub projSub
  exact mk_ok h.1 h.2

theorem rowsToSubs_ok {rs : List RawRow} (h : ∀ r ∈ rs, rowOk r) :
    rowsToSubs rs = .ok (rs.map projSub) := by
  induction rs with
  | nil => rfl
  | cons r rs ih =>
    rw [rowsToSubs, rowToSub_ok (h r (by simp)),
      ih fun x hx => h x (by simp [hx])]
    rfl

theorem rowsToSubs_inv {rs : List RawRow} {l : List Subscription}
    (h : rowsToSubs rs = .ok l) : ∀ sub ∈ l, SubInv sub := by
  induction rs generalizing l with
  | nil =>
    cases h
    simp
  | cons r rs ih =>
    rw [rowsToSubs] at h
    rcases hr : rowToSub r with e | sub <;> rw [hr] at h
    · cases h
    · rcases hrest : rowsToSubs rs with e | rest <;> rw [hrest] at h
      · cases h
      · cases h
        intro x hx
        rcases List.mem_cons.mp hx with rfl | hx'
        · exact mk_inv hr
        · exact ih hrest x hx'

/-! ### `LIKE` pattern lemmas -/

theorem likeMatch_pct (s : List Char) : likeMatch ['%'] s = true := by
  induction s with
  | nil => rfl
  | cons c s ih =>
    show (likeMatch [] (c :: s) || anySuffix (likeMatch []) s) = true
    rw [show anySuffix (likeMatch []) s = likeMatch ['%'] s from rfl, ih,
      Bool.or_true]

theorem noWildcards_cons {c : Char} {q : List Char}
    (h : noWildcards (c :: q) = true) :
    ¬ c = '%' ∧ ¬ c = '_' ∧ noWildcards q = true := by
  simp only [noWildcards, List.all_cons, Bool.and_eq_true,
    Bool.not_eq_eq_eq_not, Bool.not_true, Bool.or_eq_false_iff,
    decide_eq_false_iff_not] at h
  exact ⟨h.1.1, h.1.2, by simp only [noWildcards]; exact h.2⟩

theorem likeMatch_lit {q : List Char} (hq : noWildcards q = true) :
    ∀ t, likeMatch (q ++ ['%']) t = seqStarts q t := by
  induction q with
  | nil =>
    intro t
    rw [List.nil_append, likeMatch_pct]
    rfl
  | cons c q ih =>
    obtain ⟨hc1, hc2, hq'⟩ := noWildcards_cons hq
    intro t
    rw [List.cons_append]
    cases t with
    | nil =>
      simp [likeMatch, seqStarts, hc1, hc2]
    | cons c' t' =>
      simp only [likeMatch, hc1, hc2, if_false]
      rw [show seqStarts (c :: q) (c' :: t') =
        (decide (c = c') && seqStarts q t') from rfl, ih hq' t']

theorem likeMatch_contains {q : List Char} (hq : noWildcards q = true) :
    ∀ s, likeMatch ('%' :: (q ++ ['%'])) s = seqContains q s := by
  intro s
  induction s with
  | nil =>
    show likeMatch (q ++ ['%']) [] = seqContains q []
    rw [likeMatch_lit hq]
    rfl
  | cons c s ih =>
    show (likeMatch (q ++ ['%']) (c :: s) ||
        anySuffix (likeMatch (q ++ ['%'])) s) = seqContains q (c :: s)
    rw [likeMatch_lit hq, show anySuffix (likeMatch (q ++ ['%'])) s =
      likeMatch ('%' :: (q ++ ['%'])) s from rfl, ih]
    rfl

theorem lowerSeq_noWildcards {q : List Char} (h : noWildcards q = true) :
    noWildcards (lowerSeq q) = true := by
  simp only [noWildcards, lowerSeq, List.all_map] at h ⊢
  rw [List.all_eq_true] at h ⊢
  intro c hc
  have hcq := h c hc
  simp only [Function.comp_apply, Bool.not_eq_eq_eq_not, Bool.not_true,
    Bool.or_eq_false_iff, decide_eq_false_iff_not] at hcq ⊢
  obtain ⟨h1, h2⟩ := hcq
  unfold asciiLower
  split
  · rename_i hup
    have hval : (Char.ofNat (c.toNat + 32)).toNat = c.toNat + 32 := by
      unfold Char.ofNat
      rw [dif_pos (Or.inl (by omega : c.toNat + 32 < 55296))]
      rfl
    refine ⟨fun he => ?_, fun he => ?_⟩
    · rw [he, show ('%').toNat = 37 from rfl] at hval
      omega
    · rw [he, show ('_').toNat = 95 from rfl] at hval
      omega
  · exact ⟨h1, h2⟩

/-! ### Store query lemmas -/

theorem rowToSub_shape {r : RawRow} {sub : Subscription}
    (h : rowToSub r = .ok sub) : sub = projSub r := by
  unfold rowToSub mkSubscription at h
  split at h
  · cases h
  · split at h
    · cases h
    · cases h
      rfl

theorem rowsToSubs_shape : ∀ {rs : List RawRow} {l : List Subscription},
    rowsToSubs rs = .ok l → l = rs.map projSub
  | [], l, h => by cases h; rfl
  | r :: rs, l, h => by
    rw [rowsToSubs] at h
    rcases hr : rowToSub r with e | sub <;> rw [hr] at h
    · cases h
    · rcases hrest : rowsToSubs rs with e | rest <;> rw [hrest] at h
      · cases h
      · cases h
        rw [List.map_cons, ← rowToSub_shape hr, ← rowsToSubs_shape hrest]

theorem get_all_ok {s : Store} (h : s.RowsOK) :
    get_all_subscriptions s =
      .ok ((sortBy rowNameLe s.rows).map projSub) := by
  unfold get_all_subscriptions
  exact rowsToSubs_ok fun r hr => h r ((sortBy_perm s.rows).mem_iff.mp hr)

/-- The per-record window test used by `get_upcoming_renewals`, as an
`Option`-valued function. -/
def upcomingEntry (today : Date) (days : Int) (sub : Subscription) :
    Option (Subscription × Int) :=
  match calculate_days_until_renewal sub.renewal_date today with
  | .ok d => if 0 ≤ d ∧ d ≤ days then some (sub, d) else none
  | .error _ => none

theorem collect_eq_filterMap {today : Date} {days : Int} :
    ∀ {subs : List Subscription} {ps : List (Subscription × Int)},
      collectUpcoming today days subs = .ok ps →
      ps = subs.filterMap (upcomingEntry today days)
  | [], ps, h => by cases h; rfl
  | sub :: rest, ps, h => by
    rw [collectUpcoming] at h
    rcases hd : calculate_days_until_renewal sub.renewal_date today with
      e | d <;> rw [hd] at h
    · cases h
    · rcases hrest : collectUpcoming today days rest with e | tail <;>
        rw [hrest] at h
      · cases h
      · cases h
        rw [List.filterMap_cons, ← collect_eq_filterMap hrest]
        simp only [upcomingEntry, hd]
        split <;> rename_i hcond <;> simp [hcond]

theorem upcomingEntry_some {today : Date} {days : Int} {sub : Subscription}
    {p : Subscription × Int} (h : upcomingEntry today days sub = some p) :
    p.1 = sub ∧ calculate_days_until_renewal sub.renewal_date today =
      .ok p.2 ∧ 0 ≤ p.2 ∧ p.2 ≤ days := by
  unfold upcomingEntry at h
  split at h
  · rename_i d hd
    split at h
    · cases h
      rename_i hrange
      exact ⟨rfl, hd, hrange.1, hrange.2⟩
    · cases h
  · cases h

theorem upcoming_elim {s : Store} {days : Int} {today : Date}
    {l : List (Subscription × Int)}
    (h : get_upcoming_renewals s days today = .ok l) :
    ∃ recs ps, get_all_subscriptions s = .ok recs ∧
      collectUpcoming today days recs = .ok ps ∧ l = sortBy pairLe ps := by
  unfold get_upcoming_renewals at h
  rcases hall : get_all_subscriptions s with e | recs <;>
    simp only [hall, bind, Except.bind] at h
  · cases h
  rcases hps : collectUpcoming today days recs with e | ps <;>
    simp only [hps] at h
  · cases h
  cases h
  exact ⟨recs, ps, rfl, hps, rfl⟩

instance (r : RawRow) : Decidable (rowOk r) := by
  unfold rowOk; infer_instance

instance (s : Store) : Decidable s.RowsOK := by
  unfold Store.RowsOK; infer_instance

instance (s : Store) : Decidable s.WF := by
  unfold Store.WF; infer_instance

instance (sub : Subscription) : Decidable (SubInv sub) := by
  unfold SubInv; infer_instance

/-! ### C4: add and its validation -/

/-- C4 (amended): constructing a record fails with an error naming the
field when the cost is negative (checked first) or the renewal date string
is invalid; the name, category and payment-method length bounds are not
checked.  A constructed record is stored with its five fields unchanged
under the next unused AUTOINCREMENT id, which is returned, and the store
stays well-formed. -/
theorem claim_c4_add_validation (store : Store) (i : Option Nat)
    (name category : List Char) (cost : ℚ) (rd pm : List Char)
    (hwf : store.WF) :
    (cost < 0 → mkSubscription i name category cost rd pm =
      .error "Cost cannot be negative") ∧
    (0 ≤ cost → validate_date rd = false →
      mkSubscription i name category cost rd pm =
        .error "Invalid renewal date format") ∧
    (0 ≤ cost → validate_date rd = true →
      mkSubscription i name category cost rd pm =
        .ok ⟨i, name, category, cost, rd, pm⟩) ∧
    (∀ sub : Subscription,
      store.nextId ∉ store.rows.map RawRow.id ∧
      add_subscription store sub =
        (⟨store.rows ++
            [⟨store.nextId, sub.name, sub.category, sub.cost,
              sub.renewal_date, sub.payment_method⟩],
          store.nextId + 1⟩,
          store.nextId) ∧
      (add_subscription store sub).1.WF) := by
  obtain ⟨hids, hnodup, hpos⟩ := hwf
  refine ⟨fun h => mk_err_cost h, fun h1 h2 => mk_err_date h1 h2,
    fun h1 h2 => mk_ok h1 h2, fun sub => ?_⟩
  have hnotin : store.nextId ∉ store.rows.map RawRow.id := by
    intro hmem
    obtain ⟨r, hr, hid⟩ := List.mem_map.mp hmem
    exact absurd hid (Nat.ne_of_lt (hids r hr).2)
  refine ⟨hnotin, rfl, ?_⟩
  show Store.WF
    ⟨store.rows ++
      [⟨store.nextId, sub.name, sub.category, sub.cost, sub.renewal_date,
        sub.payment_method⟩],
      store.nextId + 1⟩
  refine ⟨?_, ?_, Nat.le_succ_of_le hpos⟩
  · show ∀ r ∈ store.rows ++
        [⟨store.nextId, sub.name, sub.category, sub.cost, sub.renewal_date,
          sub.payment_method⟩],
      1 ≤ r.id ∧ r.id < store.nextId + 1
    intro r hr
    rcases List.mem_append.mp hr with hr' | hr'
    · exact ⟨(hids r hr').1, by have := (hids r hr').2; omega⟩
    · rcases List.mem_singleton.mp hr' with rfl
      exact ⟨hpos, Nat.lt_succ_self store.nextId⟩
  · show (List.map RawRow.id (store.rows ++
      [⟨store.nextId, sub.name, sub.category, sub.cost, sub.renewal_date,
        sub.payment_method⟩])).Nodup
    rw [List.map_append, List.nodup_append]
    refine ⟨hnodup, by simp, ?_⟩
    intro x hx hx2
    simp only [List.map_cons, List.map_nil, List.mem_singleton] at hx2
    obtain ⟨r, hr, hid⟩ := List.mem_map.mp hx
    exact absurd (hid.trans hx2) (Nat.ne_of_lt (hids r hr).2)

/-- C4 counterexample: a record with an empty name (violating the 2–100
bound the claim requires add to enforce) and an empty category and payment
method is accepted by the constructor rather than rejected with a
validation error. -/
theorem claim_c4_counterexample :
    mkSubscription none [] [] 1 ("2024-01-10".toList) [] =
      .ok ⟨none, [], [], 1, "2024-01-10".toList, []⟩ := by
  decide

/-- C4 witness: the amended theorem applied to a concrete well-formed
store. -/
theorem claim_c4_witness :
    (Store.WF ⟨[⟨1, "Netflix".toList, "Streaming".toList, 10,
        "2024-01-10".toList, "Card".toList⟩], 2⟩) ∧
    ((0 : ℚ) ≤ 5 → validate_date ("2024-03-01".toList) = true →
      mkSubscription none ("Spotify".toList) ("Music".toList) 5
        ("2024-03-01".toList) ("Card".toList) =
        .ok ⟨none, "Spotify".toList, "Music".toList, 5,
          "2024-03-01".toList, "Card".toList⟩) :=
  ⟨by decide,
    (claim_c4_add_validation
      ⟨[⟨1, "Netflix".toList, "Streaming".toList, 10, "2024-01-10".toList,
        "Card".toList⟩], 2⟩
      none ("Spotify".toList) ("Music".toList) 5 ("2024-03-01".toList)
      ("Card".toList) (by decide)).2.2.1⟩

/-! ### C5: update -/

/-- C5 (amended): a record whose id is `None` or `0` makes update raise the
id-required `ValueError`; a record whose nonzero id matches no row signals
failure (`False`, the not-found outcome) and leaves the store unchanged; a
record whose id exists has its row's five data columns replaced wholesale
and update signals success (`True`). -/
theorem claim_c5_update (store : Store) (sub : Subscription) :
    (sub.id = none → update_subscription store sub =
      .error "Subscription ID is required for update") ∧
    (sub.id = some 0 → update_subscription store sub =
      .error "Subscription ID is required for update") ∧
    (∀ i, sub.id = some i → i ≠ 0 → (∀ r ∈ store.rows, r.id ≠ i) →
      update_subscription store sub = .ok (store, false)) ∧
    (∀ i, sub.id = some i → i ≠ 0 → (∃ r ∈ store.rows, r.id = i) →
      update_subscription store sub =
        .ok (⟨store.rows.map fun r =>
            if r.id = i then
              ⟨i, sub.name, sub.category, sub.cost, sub.renewal_date,
                sub.payment_method⟩
            else r,
          store.nextId⟩, true)) := by
  refine ⟨fun h => by simp only [update_subscription, h], fun h => by
    simp only [update_subscription, h, if_pos], ?_, ?_⟩
  · intro i hid hi habs
    simp only [update_subscription, hid]
    rw [if_neg hi]
    have hmap : (store.rows.map fun r =>
        if r.id = i then
          { r with
            name := sub.name, category := sub.category, cost := sub.cost,
            renewal_date := sub.renewal_date,
            payment_method := sub.payment_method }
        else r) = store.rows := by
      rw [List.map_congr_left fun r hr => if_neg (habs r hr)]
      exact List.map_id _
    have hany : (store.rows.any fun r => r.id == i) = false := by
      rw [List.any_eq_false]
      intro r hr
      simpa using habs r hr
    rw [hmap, hany]
  · intro i hid hi hex
    simp only [update_subscription, hid]
    rw [if_neg hi]
    have hany : (store.rows.any fun r => r.id == i) = true := by
      rw [List.any_eq_true]
      obtain ⟨r, hr, he⟩ := hex
      exact ⟨r, hr, by simpa using he⟩
    have hmap : (store.rows.map fun r =>
        if r.id = i then
          { r with
            name := sub.name, category := sub.category, cost := sub.cost,
            renewal_date := sub.renewal_date,
            payment_method := sub.payment_method }
        else r) = store.rows.map fun r =>
          if r.id = i then
            ⟨i, sub.name, sub.category, sub.cost, sub.renewal_date,
              sub.payment_method⟩
          else r := by
      refine List.map_congr_left fun r hr => ?_
      by_cases he : r.id = i
      · rw [if_pos he, if_pos he, he]
      · rw [if_neg he, if_neg he]
    rw [hmap, hany]

/-- C5 counterexample: a record whose id is `None` references no existing
entry, yet update raises the id-required `ValueError` instead of signalling
the not-found failure value. -/
theorem claim_c5_counterexample :
    update_subscription
      ⟨[⟨1, "Netflix".toList, "Streaming".toList, 10, "2024-01-10".toList,
        "Card".toList⟩], 2⟩
      ⟨none, "X".toList, "Y".toList, 1, "2024-01-01".toList, "Z".toList⟩ =
      .error "Subscription ID is required for update" := by
  decide

/-- C5 witness: the amended theorem applied to a concrete store, showing
the not-found failure on an absent id. -/
theorem claim_c5_witness :
    ((⟨some 7, "X".toList, "Y".toList, 1, "2024-01-01".toList,
        "Z".toList⟩ : Subscription).id = some 7) ∧
    update_subscription
      ⟨[⟨1, "Netflix".toList, "Streaming".toList, 10, "2024-01-10".toList,
        "Card".toList⟩], 2⟩
      ⟨some 7, "X".toList, "Y".toList, 1, "2024-01-01".toList,
        "Z".toList⟩ =
      .ok (⟨[⟨1, "Netflix".toList, "Streaming".toList, 10,
        "2024-01-10".toList, "Card".toList⟩], 2⟩, false) :=
  ⟨rfl,
    (claim_c5_update
      ⟨[⟨1, "Netflix".toList, "Streaming".toList, 10, "2024-01-10".toList,
        "Card".toList⟩], 2⟩
      ⟨some 7, "X".toList, "Y".toList, 1, "2024-01-01".toList,
        "Z".toList⟩).2.2.1 7 rfl (by decide) (by decide)⟩

/-! ### C3: search -/

theorem seqContains_nil (s : List Char) : seqContains [] s = true := by
  cases s <;> rfl

/-- C3 (amended): for every query free of the SQL `LIKE` wildcards `%` and
`_`, search returns exactly the stored records whose name or category
contains the query as a case-insensitive substring, in `list_all` order
(name ascending); since the empty query is a substring of everything, the
empty query returns all records — not the empty sequence the claim
demands. -/
theorem claim_c3_search (store : Store) (q : List Char)
    (l : List Subscription) (hrows : store.RowsOK)
    (hq : noWildcards q = true)
    (hall : get_all_subscriptions store = .ok l) :
    search_subscriptions store q =
      .ok (l.filter fun sub =>
        seqContains (lowerSeq q) (lowerSeq sub.name) ||
          seqContains (lowerSeq q) (lowerSeq sub.category)) ∧
    (q = [] → search_subscriptions store q = .ok l) := by
  have hleq : l = (sortBy rowNameLe store.rows).map projSub := by
    have h2 := get_all_ok hrows
    rw [hall] at h2
    simpa using h2
  have key : search_subscriptions store q =
      .ok (l.filter fun sub =>
        seqContains (lowerSeq q) (lowerSeq sub.name) ||
          seqContains (lowerSeq q) (lowerSeq sub.category)) := by
    have hmem : ∀ r ∈ sortBy rowNameLe
        (store.rows.filter (rowMatchesQuery (lowerSeq q))), rowOk r :=
      fun r hr =>
        hrows r (List.mem_of_mem_filter ((sortBy_perm _).mem_iff.mp hr))
    unfold search_subscriptions
    rw [rowsToSubs_ok hmem]
    refine congrArg Except.ok ?_
    rw [← filter_sortBy rowNameLe_total rowNameLe_trans, hleq,
      List.filter_map]
    refine congrArg _ (List.filter_congr fun r hr => ?_)
    unfold rowMatchesQuery likePattern
    simp only [Function.comp_apply, projSub]
    rw [likeMatch_contains (lowerSeq_noWildcards hq),
      likeMatch_contains (lowerSeq_noWildcards hq)]
  refine ⟨key, fun hq0 => ?_⟩
  subst hq0
  rw [key]
  have : ∀ sub : Subscription,
      (seqContains (lowerSeq []) (lowerSeq sub.name) ||
        seqContains (lowerSeq []) (lowerSeq sub.category)) = true := by
    intro sub
    rw [show lowerSeq [] = [] from rfl, seqContains_nil, Bool.true_or]
  simp [this]

/-- C3 counterexample: the empty query returns every stored record rather
than the empty sequence, and a query containing the `_` wildcard matches a
record that does not contain it as a substring. -/
theorem claim_c3_counterexample :
    search_subscriptions
      ⟨[⟨1, "Netflix".toList, "Streaming".toList, 10, "2024-01-10".toList,
        "Card".toList⟩], 2⟩ [] =
      .ok [⟨some 1, "Netflix".toList, "Streaming".toList, 10,
        "2024-01-10".toList, "Card".toList⟩] ∧
    search_subscriptions
      ⟨[⟨1, "xyz".toList, "Streaming".toList, 10, "2024-01-10".toList,
        "Card".toList⟩], 2⟩ ("x_z".toList) =
      .ok [⟨some 1, "xyz".toList, "Streaming".toList, 10,
        "2024-01-10".toList, "Card".toList⟩] ∧
    seqContains (lowerSeq ("x_z".toList)) (lowerSeq ("xyz".toList)) =
      false :=
  ⟨by decide, by decide, by decide⟩

/-- C3 witness: on a concrete store, searching "cloud" returns exactly the
record whose category contains it, and the empty query returns both
records. -/
theorem claim_c3_witness :
    Store.RowsOK ⟨[⟨1, "Netflix".toList, "Streaming".toList, 16,
        "2024-01-10".toList, "Card".toList⟩,
      ⟨2, "Dropbox Plus".toList, "Cloud Storage".toList, 10,
        "2024-01-05".toList, "PayPal".toList⟩], 3⟩ ∧
    noWildcards ("cloud".toList) = true ∧
    get_all_subscriptions ⟨[⟨1, "Netflix".toList, "Streaming".toList, 16,
        "2024-01-10".toList, "Card".toList⟩,
      ⟨2, "Dropbox Plus".toList, "Cloud Storage".toList, 10,
        "2024-01-05".toList, "PayPal".toList⟩], 3⟩ =
      .ok [⟨some 2, "Dropbox Plus".toList, "Cloud Storage".toList, 10,
          "2024-01-05".toList, "PayPal".toList⟩,
        ⟨some 1, "Netflix".toList, "Streaming".toList, 16,
          "2024-01-10".toList, "Card".toList⟩] ∧
    search_subscriptions ⟨[⟨1, "Netflix".toList, "Streaming".toList, 16,
        "2024-01-10".toList, "Card".toList⟩,
      ⟨2, "Dropbox Plus".toList, "Cloud Storage".toList, 10,
        "2024-01-05".toList, "PayPal".toList⟩], 3⟩ ("cloud".toList) =
      .ok ([⟨some 2, "Dropbox Plus".toList, "Cloud Storage".toList, 10,
          "2024-01-05".toList, "PayPal".toList⟩,
        ⟨some 1, "Netflix".toList, "Streaming".toList, 16,
          "2024-01-10".toList, "Card".toList⟩].filter fun sub =>
        seqContains (lowerSeq ("cloud".toList)) (lowerSeq sub.name) ||
          seqContains (lowerSeq ("cloud".toList))
            (lowerSeq sub.category)) :=
  ⟨by decide, by decide, by decide,
    (claim_c3_search
      ⟨[⟨1, "Netflix".toList, "Streaming".toList, 16, "2024-01-10".toList,
        "Card".toList⟩,
      ⟨2, "Dropbox Plus".toList, "Cloud Storage".toList, 10,
        "2024-01-05".toList, "PayPal".toList⟩], 3⟩
      ("cloud".toList)
      [⟨some 2, "Dropbox Plus".toList, "Cloud Storage".toList, 10,
          "2024-01-05".toList, "PayPal".toList⟩,
        ⟨some 1, "Netflix".toList, "Streaming".toList, 16,
          "2024-01-10".toList, "Card".toList⟩]
      (by decide) (by decide) (by decide)).1⟩

/-! ### C9: cost totals -/

/-- C9: the monthly total is the sum of the cost column over all stored
records (0 for the empty store) and the annual total is the monthly total
times 12. -/
theorem claim_c9_totals (store : Store) (hrows : store.RowsOK) :
    get_total_monthly_cost store = .ok ((store.rows.map RawRow.cost).sum) ∧
    get_total_annual_cost store =
      .ok ((store.rows.map RawRow.cost).sum * 12) ∧
    (store.rows = [] → get_total_monthly_cost store = .ok 0) := by
  have hmono : get_total_monthly_cost store =
      .ok ((store.rows.map RawRow.cost).sum) := by
    unfold get_total_monthly_cost
    rw [get_all_ok hrows]
    simp only [Except.map]
    refine congrArg Except.ok ?_
    rw [List.map_map]
    exact List.Perm.sum_eq ((sortBy_perm store.rows).map RawRow.cost)
  refine ⟨hmono, ?_, fun he => by rw [hmono, he]; rfl⟩
  unfold get_total_annual_cost
  rw [hmono]
  rfl

/-- C9 witness: the totals theorem applied to a concrete two-record
store. -/
theorem claim_c9_witness :
    Store.RowsOK ⟨[⟨1, "Netflix".toList, "Streaming".toList, 16,
        "2024-01-10".toList, "Card".toList⟩,
      ⟨2, "Dropbox Plus".toList, "Cloud Storage".toList, 10,
        "2024-01-05".toList, "PayPal".toList⟩], 3⟩ ∧
    get_total_monthly_cost ⟨[⟨1, "Netflix".toList, "Streaming".toList, 16,
        "2024-01-10".toList, "Card".toList⟩,
      ⟨2, "Dropbox Plus".toList, "Cloud Storage".toList, 10,
        "2024-01-05".toList, "PayPal".toList⟩], 3⟩ =
      .ok (([(16 : ℚ), 10]).sum) ∧
    get_total_annual_cost ⟨[⟨1, "Netflix".toList, "Streaming".toList, 16,
        "2024-01-10".toList, "Card".toList⟩,
      ⟨2, "Dropbox Plus".toList, "Cloud Storage".toList, 10,
        "2024-01-05".toList, "PayPal".toList⟩], 3⟩ =
      .ok (([(16 : ℚ), 10]).sum * 12) :=
  ⟨by decide,
    (claim_c9_totals ⟨[⟨1, "Netflix".toList, "Streaming".toList, 16,
        "2024-01-10".toList, "Card".toList⟩,
      ⟨2, "Dropbox Plus".toList, "Cloud Storage".toList, 10,
        "2024-01-05".toList, "PayPal".toList⟩], 3⟩ (by decide)).1,
    (claim_c9_totals ⟨[⟨1, "Netflix".toList, "Streaming".toList, 16,
        "2024-01-10".toList, "Card".toList⟩,
      ⟨2, "Dropbox Plus".toList, "Cloud Storage".toList, 10,
        "2024-01-05".toList, "PayPal".toList⟩], 3⟩ (by decide)).2.1⟩

/-! ### C10: the record invariant -/

/-- C10: every constructible record satisfies cost ≥ 0 and a valid renewal
date (construction fails otherwise), so every record returned by the get,
list-all, search, by-category or upcoming queries — all of which rebuild
records from stored rows through the validating constructor — satisfies the
invariant. -/
theorem claim_c10_record_invariant :
    (∀ (i : Option Nat) (name category : List Char) (cost : ℚ)
        (rd pm : List Char) (sub : Subscription),
        mkSubscription i name category cost rd pm = .ok sub →
        SubInv sub) ∧
    (∀ rs l, rowsToSubs rs = .ok l → ∀ sub ∈ l, SubInv sub) ∧
    (∀ s l, get_all_subscriptions s = .ok l → ∀ sub ∈ l, SubInv sub) ∧
    (∀ s c lc, get_subscriptions_by_category s c = .ok lc →
      ∀ sub ∈ lc, SubInv sub) ∧
    (∀ s q lq, search_subscriptions s q = .ok lq →
      ∀ sub ∈ lq, SubInv sub) ∧
    (∀ s i sub, get_subscription_by_id s i = .ok (some sub) →
      SubInv sub) ∧
    (∀ s days today lu, get_upcoming_renewals s days today = .ok lu →
      ∀ p ∈ lu, SubInv p.1) := by
  refine ⟨fun _ _ _ _ _ _ _ h => mk_inv h,
    fun rs l h => rowsToSubs_inv h,
    fun s l h => rowsToSubs_inv h,
    fun s c lc h => rowsToSubs_inv h,
    fun s q lq h => rowsToSubs_inv h, ?_, ?_⟩
  · intro s i sub h
    unfold get_subscription_by_id at h
    rcases hf : s.rows.find? (fun r => r.id == i) with _ | r <;>
      rw [hf] at h
    · cases h
    · rcases hr : rowToSub r with e | sub' <;>
        simp only [hr, Except.map] at h
      · cases h
      · cases h
        exact mk_inv hr
  · intro s days today lu h
    obtain ⟨recs, ps, hall, hps, rfl⟩ := upcoming_elim h
    intro p hp
    have hp' : p ∈ ps := (sortBy_perm ps).mem_iff.mp hp
    rw [collect_eq_filterMap hps] at hp'
    obtain ⟨sub, hsub, he⟩ := List.mem_filterMap.mp hp'
    obtain ⟨h1, _, _⟩ := upcomingEntry_some he
    rw [h1]
    exact rowsToSubs_inv hall sub hsub

/-- C10 witness: the invariant theorem applied to a concrete successful
construction. -/
theorem claim_c10_witness :
    SubInv ⟨none, "Spotify".toList, "Music".toList, 5,
      "2024-03-01".toList, "Card".toList⟩ :=
  claim_c10_record_invariant.1 none ("Spotify".toList) ("Music".toList) 5
    ("2024-03-01".toList) ("Card".toList)
    ⟨none, "Spotify".toList, "Music".toList, 5, "2024-03-01".toList,
      "Card".toList⟩ (by decide)

/-! ### C6: upcoming renewals -/

/-- C6 (amended): whenever the call returns (the renewal computation
succeeds for every stored record — see the Feb 29 case of C2), it returns
exactly the (record, days_until) pairs with days_until the record's
day count and 0 ≤ days_until ≤ days, sorted ascending by days_until with
ties broken by record name ascending (the stable sort over the name-ordered
record list). -/
theorem claim_c6_upcoming (store : Store) (days : Int) (today : Date)
    (recs : List Subscription) (l : List (Subscription × Int))
    (hall : get_all_subscriptions store = .ok recs)
    (hok : get_upcoming_renewals store days today = .ok l) :
    l.Perm (recs.filterMap (upcomingEntry today days)) ∧
    (∀ p ∈ l, calculate_days_until_renewal p.1.renewal_date today =
      .ok p.2 ∧ 0 ≤ p.2 ∧ p.2 ≤ days) ∧
    l.Pairwise (fun a b => a.2 < b.2 ∨
      (a.2 = b.2 ∧ charListLe a.1.name b.1.name = true)) := by
  obtain ⟨recs', ps, hall', hps, rfl⟩ := upcoming_elim hok
  rw [hall] at hall'
  have hre : recs = recs' := by simpa using hall'
  subst hre
  have hfm := collect_eq_filterMap hps
  refine ⟨(sortBy_perm ps).trans (by rw [hfm]), ?_, ?_⟩
  · intro p hp
    have hp' : p ∈ ps := (sortBy_perm ps).mem_iff.mp hp
    rw [hfm] at hp'
    obtain ⟨sub, hsub, he⟩ := List.mem_filterMap.mp hp'
    obtain ⟨h1, h2, h3, h4⟩ := upcomingEntry_some he
    rw [h1]
    exact ⟨h2, h3, h4⟩
  · have hsorted : recs.Pairwise fun x y =>
        charListLe x.name y.name = true := by
      rw [rowsToSubs_shape hall, List.pairwise_map]
      exact sortBy_sorted rowNameLe_total rowNameLe_trans store.rows
    have hQ : ps.Pairwise fun x y : Subscription × Int =>
        charListLe x.1.name y.1.name = true := by
      rw [hfm, List.pairwise_filterMap]
      refine hsorted.imp ?_
      intro a b hab x hx y hy
      obtain ⟨hx1, _, _, _⟩ := upcomingEntry_some (Option.mem_def.mp hx)
      obtain ⟨hy1, _, _, _⟩ := upcomingEntry_some (Option.mem_def.mp hy)
      rw [hx1, hy1]
      exact hab
    have hst := stable_sortBy pairLe_total pairLe_trans hQ
    refine hst.imp ?_
    intro a b hab
    rcases hab with ⟨h1, h2⟩ | ⟨h1, h2, h3⟩
    · simp only [pairLe, decide_eq_true_eq] at h1
      simp only [pairLe, decide_eq_false_iff_not] at h2
      exact Or.inl (by omega)
    · simp only [pairLe, decide_eq_true_eq] at h1 h2
      exact Or.inr ⟨by omega, h3⟩

/-- C6 counterexample: a store holding a valid Feb 29 record makes the
upcoming query raise for a 2025 today instead of returning the claimed
sequence of pairs. -/
theorem claim_c6_counterexample :
    get_upcoming_renewals
      ⟨[⟨1, "Leap".toList, "Other".toList, 10, "2024-02-29".toList,
        "Card".toList⟩], 2⟩ 30 ⟨2025, 1, 1⟩ =
      .error "Error calculating days until renewal" := by
  decide

/-- C6 witness: on a concrete two-record store with today 2024-01-05 and a
30-day window, both hypotheses hold and the returned pairs carry day counts
0 and 5 in order. -/
theorem claim_c6_witness :
    get_all_subscriptions ⟨[⟨1, "Netflix".toList, "Streaming".toList, 16,
        "2024-01-10".toList, "Card".toList⟩,
      ⟨2, "Dropbox Plus".toList, "Cloud Storage".toList, 10,
        "2024-01-05".toList, "PayPal".toList⟩], 3⟩ =
      .ok [⟨some 2, "Dropbox Plus".toList, "Cloud Storage".toList, 10,
          "2024-01-05".toList, "PayPal".toList⟩,
        ⟨some 1, "Netflix".toList, "Streaming".toList, 16,
          "2024-01-10".toList, "Card".toList⟩] ∧
    get_upcoming_renewals ⟨[⟨1, "Netflix".toList, "Streaming".toList, 16,
        "2024-01-10".toList, "Card".toList⟩,
      ⟨2, "Dropbox Plus".toList, "Cloud Storage".toList, 10,
        "2024-01-05".toList, "PayPal".toList⟩], 3⟩ 30 ⟨2024, 1, 5⟩ =
      .ok [(⟨some 2, "Dropbox Plus".toList, "Cloud Storage".toList, 10,
          "2024-01-05".toList, "PayPal".toList⟩, 0),
        (⟨some 1, "Netflix".toList, "Streaming".toList, 16,
          "2024-01-10".toList, "Card".toList⟩, 5)] ∧
    (([(⟨some 2, "Dropbox Plus".toList, "Cloud Storage".toList, 10,
          "2024-01-05".toList, "PayPal".toList⟩, (0 : Int)),
        (⟨some 1, "Netflix".toList, "Streaming".toList, 16,
          "2024-01-10".toList, "Card".toList⟩, 5)] :
        List (Subscription × Int)).Perm
      (([⟨some 2, "Dropbox Plus".toList, "Cloud Storage".toList, 10,
          "2024-01-05".toList, "PayPal".toList⟩,
        ⟨some 1, "Netflix".toList, "Streaming".toList, 16,
          "2024-01-10".toList, "Card".toList⟩] :
        List Subscription).filterMap
        (upcomingEntry ⟨2024, 1, 5⟩ 30)) ∧
      (∀ p ∈ ([(⟨some 2, "Dropbox Plus".toList, "Cloud Storage".toList,
          10, "2024-01-05".toList, "PayPal".toList⟩, (0 : Int)),
        (⟨some 1, "Netflix".toList, "Streaming".toList, 16,
          "2024-01-10".toList, "Card".toList⟩, 5)] :
        List (Subscription × Int)),
        calculate_days_until_renewal p.1.renewal_date ⟨2024, 1, 5⟩ =
          .ok p.2 ∧ 0 ≤ p.2 ∧ p.2 ≤ 30) ∧
      ([(⟨some 2, "Dropbox Plus".toList, "Cloud Storage".toList, 10,
          "2024-01-05".toList, "PayPal".toList⟩, (0 : Int)),
        (⟨some 1, "Netflix".toList, "Streaming".toList, 16,
          "2024-01-10".toList, "Card".toList⟩, 5)] :
        List (Subscription × Int)).Pairwise
        (fun a b => a.2 < b.2 ∨
          (a.2 = b.2 ∧ charListLe a.1.name b.1.name = true))) :=
  ⟨by decide, by decide,
    claim_c6_upcoming ⟨[⟨1, "Netflix".toList, "Streaming".toList, 16,
        "2024-01-10".toList, "Card".toList⟩,
      ⟨2, "Dropbox Plus".toList, "Cloud Storage".toList, 10,
        "2024-01-05".toList, "PayPal".toList⟩], 3⟩ 30 ⟨2024, 1, 5⟩
      [⟨some 2, "Dropbox Plus".toList, "Cloud Storage".toList, 10,
          "2024-01-05".toList, "PayPal".toList⟩,
        ⟨some 1, "Netflix".toList, "Streaming".toList, 16,
          "2024-01-10".toList, "Card".toList⟩]
      [(⟨some 2, "Dropbox Plus".toList, "Cloud Storage".toList, 10,
          "2024-01-05".toList, "PayPal".toList⟩, 0),
        (⟨some 1, "Netflix".toList, "Streaming".toList, 16,
          "2024-01-10".toList, "Card".toList⟩, 5)]
      (by decide) (by decide)⟩

end SubMgr
